import Mathlib

/-!
Shallow embedding of the expensify-heist-mcp repository
(src/expensify_heist_mcp/parser.py and src/expensify_heist_mcp/heist.py)
used to settle the frozen claims C1..C10.

Strings are modelled by Lean `String` viewed as its list of characters.
Python character classes are restricted to their ASCII behaviour, which is
the fragment every claim exercises.  Machine floats are evaluated exactly
over the rationals; no claim depends on rounding or overflow of the host
double type.  Times are measured in half-second ticks so that every sleep
in the source (0.5 s, 1 s, 3 s) is an integer number of ticks.
-/

namespace ExpensifyHeist

/-! ### Python string primitives -/

/-- Characters removed by Python `str.strip()` (ASCII whitespace). -/
def pySpace (c : Char) : Bool :=
  c = ' ' || c = '\t' || c = '\n' || c = '\x0d' || c = '\x0b' || c = '\x0c'

/-- Model of `str.strip()` on the character list. -/
def pyStripL (l : List Char) : List Char :=
  ((l.dropWhile pySpace).reverse.dropWhile pySpace).reverse

/-- Does the first list occur as a prefix of the second one. -/
def startsWithL : List Char → List Char → Bool
  | [], _ => true
  | _ :: _, [] => false
  | a :: as, b :: bs => a = b && startsWithL as bs

/-- Does the first list occur as a contiguous sublist of the second one.
Models the Python substring operator, including the convention that the
empty string occurs in every string. -/
def containsL (needle : List Char) : List Char → Bool
  | [] => needle.isEmpty
  | c :: rest => startsWithL needle (c :: rest) || containsL needle rest

/-- Python `needle in hay` on strings. -/
def pyIn (needle hay : String) : Bool :=
  containsL needle.data hay.data

/-- Python `s.endswith(suffix)`. -/
def pyEndsWith (suffix s : String) : Bool :=
  startsWithL suffix.data.reverse s.data.reverse

/-- Python `str.lower()` on one character, restricted to ASCII (every
string any claim exercises is ASCII). -/
def pyLowerChar (c : Char) : Char :=
  if 'A' ≤ c ∧ c ≤ 'Z' then Char.ofNat (c.toNat + 32) else c

/-- Python `s.lower()`. -/
def pyLowerStr (s : String) : String := ⟨s.data.map pyLowerChar⟩

/-- Python truthiness of `str or default`: an empty (falsy) or missing
string is replaced by the default. -/
def pyOrStr (o : Option String) (d : String) : String :=
  match o with
  | none => d
  | some s => if s = "" then d else s

/-! ### Python decimal.Decimal model

`decimal.Decimal(str)` accepts, after stripping surrounding whitespace and
removing underscores, an optionally signed finite numeral, an infinity
literal, or a (quiet or signaling) NaN literal with an optional digit
payload, all case-insensitively.  Only the numeric value is modelled:
coefficient/exponent representation, NaN signs and payloads are dropped,
and non-ASCII digits are not accepted. -/

inductive PyDec where
  | fin (q : ℚ)
  | inf (neg : Bool)
  | nan
deriving DecidableEq, Repr

def PyDec.isFinite : PyDec → Bool
  | .fin _ => true
  | _ => false

/-- Negation of a decimal value. -/
def pyDecNeg : PyDec → PyDec
  | .fin q => .fin (-q)
  | .inf b => .inf (!b)
  | .nan => .nan

def allDigits (l : List Char) : Bool := l.all Char.isDigit

def natOfDigits (l : List Char) : ℕ :=
  l.foldl (fun a c => 10 * a + (c.toNat - 48)) 0

/-- Parse the exponent tail of a numeric string (after the `e`/`E`
indicator): an optional sign followed by at least one digit. -/
def parseExpTail? (l : List Char) : Option ℤ :=
  match l with
  | '+' :: ds => if ds ≠ [] && allDigits ds then some (natOfDigits ds) else none
  | '-' :: ds => if ds ≠ [] && allDigits ds then some (-(natOfDigits ds : ℤ)) else none
  | ds => if ds ≠ [] && allDigits ds then some (natOfDigits ds) else none

/-- Value of a mantissa `digits [. digits]` with at least one digit. -/
def parseMantissa? (l : List Char) : Option ℚ :=
  let ip := l.takeWhile Char.isDigit
  let rest := l.dropWhile Char.isDigit
  match rest with
  | [] => if ip = [] then none else some (natOfDigits ip : ℚ)
  | '.' :: fp =>
    if allDigits fp && (ip ≠ [] || fp ≠ []) then
      some ((natOfDigits ip : ℚ) + (natOfDigits fp : ℚ) / (10 : ℚ) ^ fp.length)
    else none
  | _ => none

/-- Scale a rational by a signed power of ten. -/
def scalePow10 (m : ℚ) (e : ℤ) : ℚ :=
  if 0 ≤ e then m * (10 : ℚ) ^ e.toNat else m / (10 : ℚ) ^ (-e).toNat

/-- An unsigned finite numeral `digits [. digits] [(e|E) [sign] digits]`,
evaluated exactly. -/
def parseUnsignedFinite? (l : List Char) : Option ℚ :=
  let mant := l.takeWhile (fun c => !(c = 'e' || c = 'E'))
  let rest := l.dropWhile (fun c => !(c = 'e' || c = 'E'))
  match rest with
  | [] => parseMantissa? mant
  | _ :: es =>
    match parseMantissa? mant, parseExpTail? es with
    | some m, some e => some (scalePow10 m e)
    | _, _ => none

/-- Lower-cased NaN literal: `nan` or `snan`, each with an optional digit
payload. -/
def isNanTok (l : List Char) : Bool :=
  (l.take 3 = ['n', 'a', 'n'] && allDigits (l.drop 3)) ||
  (l.take 4 = ['s', 'n', 'a', 'n'] && allDigits (l.drop 4))

/-- Unsigned part of a decimal numeric string; the sign has already been
consumed. -/
def unsignedPyDec? (neg : Bool) (r : List Char) : Option PyDec :=
  let low := r.map pyLowerChar
  if low = ['i', 'n', 'f'] || low = "infinity".data then some (.inf neg)
  else if isNanTok low then some .nan
  else (parseUnsignedFinite? r).map (fun q => .fin (if neg then -q else q))

/-- Sign dispatch of a decimal numeric string: consume one optional
sign, then parse the unsigned value. -/
def signDispatch : List Char → Option PyDec
  | [] => unsignedPyDec? false []
  | c :: r =>
    if c = '+' then unsignedPyDec? false r
    else if c = '-' then unsignedPyDec? true r
    else unsignedPyDec? false (c :: r)

/-- Model of the `decimal.Decimal` string constructor on a character
list: strip whitespace, remove underscores, then parse an optionally
signed numeric value. -/
def decimalOfChars? (l : List Char) : Option PyDec :=
  signDispatch ((pyStripL l).filter (fun c => c ≠ '_'))

/-! ### parser.py : field coercion helpers -/

/-- Characters deleted by the amount cleaner (currency symbols and the
thousands separator). -/
def isCurrencyChar (c : Char) : Bool :=
  c = '$' || c = '€' || c = '£' || c = '¥' || c = ','

def removeSymsL (l : List Char) : List Char :=
  l.filter (fun c => !isCurrencyChar c)

/-- Reinterpret a fully parenthesized value as a negated one (accounting
convention), exactly as the source rewrites `(X)` to `-X`. -/
def parenNeg (l : List Char) : List Char :=
  if l.head? = some '(' ∧ l.getLast? = some ')' then
    '-' :: (l.drop 1).dropLast
  else l

/-- The cleaned character list `parse_amount` hands to the decimal
constructor: strip, drop currency symbols and separators, then rewrite a
parenthesized value. -/
def cleanedAmount (s : String) : List Char :=
  parenNeg (removeSymsL (pyStripL s.data))

/-- parser.py `parse_amount`: empty or missing input is zero, the cleaned
string is fed to the decimal constructor, and any residual parse failure
degrades to zero. -/
def parse_amount (amount_str : Option String) : PyDec :=
  match amount_str with
  | none => .fin 0
  | some s =>
    if s = "" then .fin 0
    else
      match decimalOfChars? (cleanedAmount s) with
      | some d => d
      | none => .fin 0

/-- parser.py `parse_bool`: case-insensitive membership in the
affirmative token set; missing or empty input is false. -/
def parse_bool (value : Option String) : Bool :=
  match value with
  | none => false
  | some s => if s = "" then false else ["yes", "true", "1", "y"].contains (pyLowerStr s)

/-! ### parser.py : datetime.strptime model

A date value is either a concrete calendar datetime or the capture time
(`datetime.now()`), the documented fallback for missing or unparseable
dates.  The nine strptime patterns of the source are modelled with the
CPython matching rules restricted to ASCII and the C locale: numeric
directives match one to two digits (one to four for a four-digit year),
month names match case-insensitively and longest first, and the values
must form a real calendar date. -/

inductive DateVal where
  | now
  | dt (year month day hour minute second : ℕ)
deriving DecidableEq, Repr

/-- Tokens of a strptime format string. -/
inductive FTok where
  | lit (c : Char)
  | yearFull
  | yearTwo
  | month
  | day
  | hour
  | minute
  | second
  | monthNameFull
  | monthNameAbbr
deriving DecidableEq, Repr

def daysInMonth (y m : ℕ) : ℕ :=
  if m = 2 then
    if y % 4 = 0 ∧ (y % 100 ≠ 0 ∨ y % 400 = 0) then 29 else 28
  else if m = 4 ∨ m = 6 ∨ m = 9 ∨ m = 11 then 30
  else 31

/-- Full month names, lower-cased, indexed 1..12. -/
def monthNamesFull : List (List Char × ℕ) :=
  [("september".data, 9), ("february".data, 2), ("december".data, 12),
   ("november".data, 11), ("january".data, 1), ("october".data, 10),
   ("august".data, 8), ("march".data, 3), ("april".data, 4),
   ("june".data, 6), ("july".data, 7), ("may".data, 5)]

/-- Abbreviated month names, lower-cased, indexed 1..12. -/
def monthNamesAbbr : List (List Char × ℕ) :=
  [("jan".data, 1), ("feb".data, 2), ("mar".data, 3), ("apr".data, 4),
   ("may".data, 5), ("jun".data, 6), ("jul".data, 7), ("aug".data, 8),
   ("sep".data, 9), ("oct".data, 10), ("nov".data, 11), ("dec".data, 12)]

/-- Match one of the month names (already ordered longest first for the
full table) against a lower-cased prefix of the input. -/
def matchMonthName (table : List (List Char × ℕ)) (l : List Char) :
    Option (ℕ × List Char) :=
  table.findSome? fun p =>
    if startsWithL p.1 (l.map pyLowerChar) then some (p.2, l.drop p.1.length)
    else none

/-- Partially filled strptime capture record; CPython defaults are year
1900, month 1, day 1, midnight. -/
structure TimeParts where
  year : ℕ := 1900
  month : ℕ := 1
  day : ℕ := 1
  hour : ℕ := 0
  minute : ℕ := 0
  second : ℕ := 0
deriving DecidableEq, Repr

/-- Greedy run of digits, at most `maxN` long; longer runs fail because
every following format token in the nine source patterns is a non-digit,
so no backtracking split can succeed either. -/
def takeDigits (maxN : ℕ) (l : List Char) : Option (ℕ × List Char) :=
  let ds := l.takeWhile Char.isDigit
  if ds ≠ [] ∧ ds.length ≤ maxN then some (natOfDigits ds, l.drop ds.length)
  else none

def runFToks : List FTok → List Char → TimeParts → Option TimeParts
  | [], [], acc => some acc
  | [], _ :: _, _ => none
  | tok :: rest, l, acc =>
    match tok with
    | .lit c =>
      match l with
      | c2 :: l2 => if c2 = c then runFToks rest l2 acc else none
      | [] => none
    | .yearFull =>
      match takeDigits 4 l with
      | some (v, l2) => runFToks rest l2 { acc with year := v }
      | none => none
    | .yearTwo =>
      match takeDigits 2 l with
      | some (v, l2) =>
        runFToks rest l2 { acc with year := if v ≤ 68 then 2000 + v else 1900 + v }
      | none => none
    | .month =>
      match takeDigits 2 l with
      | some (v, l2) => runFToks rest l2 { acc with month := v }
      | none => none
    | .day =>
      match takeDigits 2 l with
      | some (v, l2) => runFToks rest l2 { acc with day := v }
      | none => none
    | .hour =>
      match takeDigits 2 l with
      | some (v, l2) => runFToks rest l2 { acc with hour := v }
      | none => none
    | .minute =>
      match takeDigits 2 l with
      | some (v, l2) => runFToks rest l2 { acc with minute := v }
      | none => none
    | .second =>
      match takeDigits 2 l with
      | some (v, l2) => runFToks rest l2 { acc with second := v }
      | none => none
    | .monthNameFull =>
      match matchMonthName monthNamesFull l with
      | some (m, l2) => runFToks rest l2 { acc with month := m }
      | none => none
    | .monthNameAbbr =>
      match matchMonthName monthNamesAbbr l with
      | some (m, l2) => runFToks rest l2 { acc with month := m }
      | none => none

/-- The datetime constructor validation: component ranges and real
calendar days. -/
def validParts (p : TimeParts) : Bool :=
  1 ≤ p.year && p.year ≤ 9999 && 1 ≤ p.month && p.month ≤ 12 &&
  1 ≤ p.day && p.day ≤ daysInMonth p.year p.month &&
  p.hour ≤ 23 && p.minute ≤ 59 && p.second ≤ 59

def strptime? (toks : List FTok) (l : List Char) : Option DateVal :=
  match runFToks toks l {} with
  | some p =>
    if validParts p then some (.dt p.year p.month p.day p.hour p.minute p.second)
    else none
  | none => none

/-- The nine format strings of `parse_date`, in source order. -/
def dateFormats : List (List FTok) :=
  [ [.yearFull, .lit '-', .month, .lit '-', .day],
    [.month, .lit '/', .day, .lit '/', .yearFull],
    [.month, .lit '/', .day, .lit '/', .yearTwo],
    [.day, .lit '/', .month, .lit '/', .yearFull],
    [.day, .lit '/', .month, .lit '/', .yearTwo],
    [.yearFull, .lit '-', .month, .lit '-', .day, .lit ' ',
     .hour, .lit ':', .minute, .lit ':', .second],
    [.month, .lit '/', .day, .lit '/', .yearFull, .lit ' ',
     .hour, .lit ':', .minute, .lit ':', .second],
    [.monthNameFull, .lit ' ', .day, .lit ',', .lit ' ', .yearFull],
    [.monthNameAbbr, .lit ' ', .day, .lit ',', .lit ' ', .yearFull] ]

/-- parser.py `parse_date`: try the formats in order on the stripped
input; the first one that parses wins, and a missing, empty or
unparseable date degrades to the capture time. -/
def parse_date (date_str : Option String) : DateVal :=
  match date_str with
  | none => .now
  | some s =>
    if s = "" then .now
    else
      match dateFormats.findSome? (fun f => strptime? f (pyStripL s.data)) with
      | some d => d
      | none => .now

/-! ### parser.py : column alias resolution and row records -/

/-- A CSV row as handed out by the dict reader: column name / cell value
pairs in header order.  Header names are unique in every row considered
by the theorems below, so the first-match lookup of an association list
agrees with the Python dict. -/
abbrev Row := List (String × String)

/-- Python `name in row` / `row[name]` on the row dict. -/
def rowGet (row : Row) (name : String) : Option String :=
  (row.find? (fun kv => kv.1 = name)).map (fun kv => kv.2)

/-- The case-insensitive fallback scan of `find_field`: the row keys are
tried in order against the lower-cased alias. -/
def rowGetCI (row : Row) (name : String) : Option String :=
  (row.find? (fun kv => pyLowerStr kv.1 = pyLowerStr name)).map (fun kv => kv.2)

/-- parser.py `find_field`: try each alias in order, first by exact key
match and then by a case-insensitive scan over all row keys; the first
alias present in the row wins. -/
def find_field (row : Row) : List String → Option String
  | [] => none
  | name :: rest =>
    match rowGet row name with
    | some v => some v
    | none =>
      match rowGetCI row name with
      | some v => some v
      | none => find_field row rest

/-- parser.py `field_mapping`: the static alias table, in source order. -/
def field_mapping : List (String × List String) :=
  [ ("date", ["Timestamp", "Date", "Created", "Transaction Date", "Expense Date"]),
    ("merchant", ["Merchant", "Vendor", "Payee", "Description"]),
    ("amount", ["Amount", "Total", "Expense Amount"]),
    ("currency", ["Currency", "Original Currency"]),
    ("category", ["Category", "Expense Category", "GL Code"]),
    ("tag", ["Tag", "Tags", "Project", "Cost Center"]),
    ("description", ["Comment", "Description", "Notes", "Memo"]),
    ("report_name", ["Report Name", "Report", "Report Title"]),
    ("reimbursable", ["Reimbursable", "Is Reimbursable"]),
    ("billable", ["Billable", "Is Billable"]),
    ("receipt_url", ["Receipt URL", "Receipt", "Receipt Link"]) ]

/-- Alias list of one canonical field, as `field_mapping[key]`. -/
def fmGet (key : String) : List String :=
  ((field_mapping.find? (fun kv => kv.1 = key)).map (fun kv => kv.2)).getD []

/-- parser.py `Expense`: one normalized expense record. -/
structure Expense where
  date : DateVal
  merchant : String
  amount : PyDec
  currency : String
  category : String
  tag : Option String
  description : Option String
  report_name : Option String
  reimbursable : Bool
  billable : Bool
  receipt_url : Option String
deriving DecidableEq, Repr

/-- The `Expense(...)` construction of the row loop in
`parse_expensify_csv`, one field coercion per canonical field. -/
def parse_row (row : Row) : Expense :=
  { date := parse_date (find_field row (fmGet "date"))
    merchant := pyOrStr (find_field row (fmGet "merchant")) "Unknown"
    amount := parse_amount (find_field row (fmGet "amount"))
    currency := pyOrStr (find_field row (fmGet "currency")) "USD"
    category := pyOrStr (find_field row (fmGet "category")) ""
    tag := find_field row (fmGet "tag")
    description := find_field row (fmGet "description")
    report_name := find_field row (fmGet "report_name")
    reimbursable := parse_bool (find_field row (fmGet "reimbursable"))
    billable := parse_bool (find_field row (fmGet "billable"))
    receipt_url := find_field row (fmGet "receipt_url") }

/-! ### parser.py : csv.DictReader model

The dict reader is modelled on the unquoted fragment of the csv dialect:
newline-separated records, comma-separated fields, a trailing newline
producing no extra record, and blank lines skipped.  The theorems that
use it carry explicit hypotheses keeping the input inside this fragment
(no quote characters, no carriage returns, rows as wide as the header),
which is where the model and the Python csv module agree. -/

/-- Split a character list at every occurrence of the separator, the
semantics of Python `str.split(sep)`: the empty input yields one empty
segment. -/
def splitChar (sep : Char) : List Char → List (List Char)
  | [] => [[]]
  | c :: rest =>
    match splitChar sep rest with
    | [] => [[c]]
    | h :: t => if c = sep then [] :: h :: t else (c :: h) :: t

def splitCommas (line : String) : List String :=
  (splitChar ',' line.data).map (fun l => ⟨l⟩)

/-- Records of the csv text: one per line, with a final empty segment
(from a trailing newline) producing no record. -/
def csvLines (text : String) : List String :=
  let ls := (splitChar '\n' text.data).map (fun l => (⟨l⟩ : String))
  match ls.getLast? with
  | some "" => ls.dropLast
  | _ => ls

/-- The rows the dict reader yields: the first record is the header, each
later non-blank record is zipped with it. -/
def dictRows (text : String) : List Row :=
  match csvLines text with
  | [] => []
  | header :: rest =>
    let fns := splitCommas header
    (rest.filter (fun l => l ≠ "")).map (fun line => fns.zip (splitCommas line))

/-- parser.py `parse_expensify_csv`: one `Expense` appended per row, in
reading order. -/
def parse_expensify_csv (csv_content : String) : List Expense :=
  (dictRows csv_content).map parse_row

/-! ### heist.py : the automation bridge and its environment

Each distinct AppleScript the source can issue is one bridge command; the
scripts themselves are opaque payloads whose only observable is the
string result the bridge returns, so the longer JavaScript snippets are
abbreviated to stable tokens below.  An environment fixes, per point in
time, the bridge response to each command and the contents of the
downloads directory.  Time is counted in half-second ticks. -/

inductive Cmd where
  | activate
  | ensureWindow
  | setUrl (url : String)
  | getUrl
  | runJs (script : String)
  | closeTab
deriving DecidableEq, Repr

/-- One candidate file of the downloads directory. -/
structure FileInfo where
  name : String
  mtime : ℤ
  readable : Bool
  content : String
deriving DecidableEq, Repr

structure Env where
  respond : ℤ → Cmd → Except String String
  files : ℤ → List FileInfo

/-- Running state of one call: the clock (half-second ticks) and the
ordered trace of bridge commands issued so far. -/
structure S where
  t : ℤ
  tr : List Cmd
deriving DecidableEq, Repr

deriving instance DecidableEq for Except

/-- Issue one bridge command: record it and read the response from the
environment at the current time. -/
def issue (env : Env) (s : S) (c : Cmd) : Except String String × S :=
  (env.respond s.t c, ⟨s.t, s.tr ++ [c]⟩)

/-- time.sleep, in half-second ticks. -/
def sleepTicks (s : S) (d : ℕ) : S := ⟨s.t + d, s.tr⟩

def reportsUrl : String := "https://www.expensify.com/reports"

def signinUrl : String := "https://www.expensify.com/signin"

/-- The readiness probe script, verbatim from the source. -/
def readyScript : String := "document.querySelectorAll(\"input[type=checkbox]\").length"

/-- Token for the checkbox-click IIFE of the source, which clicks the
first input.reportstable_checkbox and yields clicked / not found; only
the result string is ever inspected, so the body is abbreviated. -/
def jsClickCheckbox : String := "click first input.reportstable_checkbox"

/-- Token for the export-menu IIFE, which clicks button_exportButton and
yields clicked / not found. -/
def jsClickExport : String := "click button_exportButton"

/-- Token for the format-selection IIFE, which clicks the anchor whose
text is Default CSV and yields clicked / not found. -/
def jsClickCsv : String := "click the Default CSV anchor"

/-- heist.py `set_safari_url`: ensure a window exists, then point the
current tab at the url; either applescript failure propagates. -/
def set_safari_url (env : Env) (s : S) (url : String) : Except String Unit × S :=
  match issue env s .ensureWindow with
  | (.error e, s1) => (.error e, s1)
  | (.ok _, s1) =>
    match issue env s1 (.setUrl url) with
    | (.error e, s2) => (.error e, s2)
    | (.ok _, s2) => (.ok (), s2)

/-- heist.py `close_safari_tab`: best effort, the bridge result is
discarded and a failure is swallowed. -/
def close_safari_tab (env : Env) (s : S) : S :=
  (issue env s .closeTab).2

/-- heist.py `is_logged_in`: activate, navigate to the protected reports
url, wait three seconds for redirects, then inspect the tab url; every
bridge failure degrades to false. -/
def is_logged_in (env : Env) (s : S) : Bool × S :=
  match issue env s .activate with
  | (.error _, s1) => (false, s1)
  | (.ok _, s1) =>
    match set_safari_url env s1 reportsUrl with
    | (.error _, s2) => (false, s2)
    | (.ok _, s2) =>
      let s3 := sleepTicks s2 6
      match issue env s3 .getUrl with
      | (.error _, s4) => (false, s4)
      | (.ok url, s4) => (pyIn "/reports" url && !pyIn "sign-in" (pyLowerStr url), s4)

/-- The login polling loop of `sync_login_interactive`: sleep three
seconds, read the tab url (failures swallowed), and once the url carries
no login marker confirm with the probe; the wall-clock deadline
`start + timeout` is fixed at entry.  The loop is written with a fuel
argument for totality; every iteration advances the clock by at least
six ticks, so fuel `timeout_seconds + 1` is never the binding bound and
the clock guard alone decides termination. -/
def loginPoll (env : Env) (start : ℤ) (timeout_seconds : ℕ) :
    ℕ → S → Except String Bool × S
  | 0, s => (.ok false, s)
  | fuel + 1, s =>
    if s.t - start < (2 * timeout_seconds : ℤ) then
      let s1 := sleepTicks s 6
      match issue env s1 .getUrl with
      | (.error _, s2) => loginPoll env start timeout_seconds fuel s2
      | (.ok url, s2) =>
        if !pyIn "sign-in" (pyLowerStr url) && !pyIn "signin" (pyLowerStr url) then
          match is_logged_in env s2 with
          | (true, s3) => (.ok true, s3)
          | (false, s3) => loginPoll env start timeout_seconds fuel s3
        else loginPoll env start timeout_seconds fuel s2
    else (.ok false, s)

/-- heist.py `sync_login_interactive`: activate (a failure here
propagates), short-circuit on the probe, otherwise navigate to the
sign-in page and poll until the deadline. -/
def sync_login_interactive (env : Env) (profile : String) (timeout_seconds : ℕ) :
    Except String Bool × S :=
  match issue env ⟨0, []⟩ .activate with
  | (.error e, s1) => (.error e, s1)
  | (.ok _, s1) =>
    match is_logged_in env s1 with
    | (true, s2) => (.ok true, s2)
    | (false, s2) =>
      match set_safari_url env s2 signinUrl with
      | (.error e, s3) => (.error e, s3)
      | (.ok _, s3) => loginPoll env s3.t timeout_seconds (timeout_seconds + 1) s3

/-- The navigation commands of a trace, in order. -/
def navigationsOf (tr : List Cmd) : List String :=
  tr.filterMap (fun c => match c with | .setUrl u => some u | _ => none)

/-! ### heist.py : the download watcher -/

/-- Heuristic of the watcher: the content carries a recognizable header
token, or the file name itself signals the source application. -/
def looksLikeExport (f : FileInfo) : Bool :=
  pyIn "Merchant" f.content || pyIn "Amount" f.content || pyIn "Expensify" f.name

/-- One candidate is accepted when it is fresh (ages are compared in
seconds, hence the factor two on ticks), readable, and matches the
heuristic. -/
def acceptsCandidate (now max_age_seconds : ℤ) (f : FileInfo) : Bool :=
  !(decide (now - f.mtime > 2 * max_age_seconds)) && f.readable && looksLikeExport f

/-- The body of the watcher loop: stale files are skipped, unreadable
files are skipped, the first candidate matching the heuristic is
returned. -/
def scanCandidates (now max_age_seconds : ℤ) : List FileInfo → Option FileInfo
  | [] => none
  | f :: rest =>
    if now - f.mtime > 2 * max_age_seconds then scanCandidates now max_age_seconds rest
    else if !f.readable then scanCandidates now max_age_seconds rest
    else if looksLikeExport f then some f
    else scanCandidates now max_age_seconds rest

/-- Stable insertion into a list already sorted by decreasing mtime. -/
def insertByMtimeDesc (f : FileInfo) : List FileInfo → List FileInfo
  | [] => [f]
  | g :: rest =>
    if g.mtime ≤ f.mtime then f :: g :: rest else g :: insertByMtimeDesc f rest

/-- Stable sort by decreasing modification time, the model of Python
sorted(..., reverse=True): ties keep their directory order. -/
def sortByMtimeDesc : List FileInfo → List FileInfo
  | [] => []
  | f :: rest => insertByMtimeDesc f (sortByMtimeDesc rest)

/-- heist.py `find_latest_expensify_csv`: glob the csv files, order them
most recent first, and scan at most the ten most recent for the first
fresh, readable candidate matching the export heuristic. -/
def find_latest_expensify_csv (files : List FileInfo) (now max_age_seconds : ℤ) :
    Option FileInfo :=
  let csv_files := sortByMtimeDesc (files.filter (fun f => pyEndsWith ".csv" f.name))
  scanCandidates now max_age_seconds (csv_files.take 10)

/-- pathlib stem of a file name: the name up to its last dot, with a
lone leading dot counting as part of the stem. -/
def pathStem (n : String) : String :=
  match n.data.reverse.dropWhile (fun c => c ≠ '.') with
  | [] => n
  | _ :: pre => if pre = [] then n else ⟨pre.reverse⟩

/-! ### heist.py : the export orchestration -/

inductive HErr where
  | bridge (msg : String)
  | pageNotReady
  | notLoggedIn
  | noCheckboxes
  | exportButtonNotFound
  | defaultCsvNotFound
  | noExport
deriving DecidableEq, Repr

/-- Model of `int(float(s))`: the numeric string is evaluated exactly,
and the conversion fails (is swallowed by the caller) on NaN or an
infinity.  The literals accepted match the float constructor: inf,
infinity and nan without payload. -/
def toCount (s : String) : Option ℤ :=
  let t := pyStripL s.data
  let parseUnsigned : Bool → List Char → Option ℤ := fun neg r =>
    let low := r.map pyLowerChar
    if low = ['i', 'n', 'f'] || low = "infinity".data || low = ['n', 'a', 'n'] then none
    else (parseUnsignedFinite? r).map (fun q =>
      let v : ℤ := q.num / (q.den : ℤ)
      if neg then -v else v)
  match t with
  | '+' :: r => parseUnsigned false r
  | '-' :: r => parseUnsigned true r
  | r => parseUnsigned false r

/-- Did one readiness attempt break the polling loop: the bridge call
succeeded, its result converted to a number, and the control count
exceeded the threshold distinguishing a rendered list from bare filter
controls. -/
def readySuccess (r : Except String String) : Bool :=
  match r with
  | .error _ => false
  | .ok res =>
    match toCount res with
    | some c => decide (c > 10)
    | none => false

/-- The page-readiness polling loop: up to twenty attempts, each one
second apart, every failure (bridge or conversion) swallowed. -/
def readinessPoll (env : Env) : ℕ → S → Bool × S
  | 0, s => (false, s)
  | n + 1, s =>
    let s1 := sleepTicks s 2
    match issue env s1 (.runJs readyScript) with
    | (.error _, s2) => readinessPoll env n s2
    | (.ok res, s2) =>
      match toCount res with
      | some c => if c > 10 then (true, s2) else readinessPoll env n s2
      | none => readinessPoll env n s2

/-- The download-await loop: until the deadline fixed at the orchestration
start, rescan the downloads directory with a freshness window derived
from the elapsed time, and return as soon as a candidate newer than the
start is found; both exits close the tab first.  Written with a fuel
argument for totality; each iteration advances the clock by one tick, so
fuel `2 * timeout + 1` is never the binding bound. -/
def downloadPoll (env : Env) (start endT : ℤ) :
    ℕ → S → Except HErr (String × String) × S
  | 0, s => (.error .noExport, close_safari_tab env s)
  | fuel + 1, s =>
    if s.t < endT then
      match find_latest_expensify_csv (env.files s.t) s.t ((s.t - start + 10) / 2) with
      | some f =>
        if f.mtime > start then
          (.ok (f.content, pathStem f.name), close_safari_tab env s)
        else downloadPoll env start endT fuel (sleepTicks s 1)
      | none => downloadPoll env start endT fuel (sleepTicks s 1)
    else (.error .noExport, close_safari_tab env s)

/-- heist.py `sync_fetch_expenses_csv`: the export orchestration.
report_id and headless are accepted and never consulted, exactly as in
the source.  Failures of the un-guarded bridge calls propagate as
`HErr.bridge`; the RuntimeErrors raised at each verification site are
the remaining constructors. -/
def sync_fetch_expenses_csv (env : Env) (report_id : Option String)
    (headless : Bool) (timeout : ℕ) : Except HErr (String × String) × S :=
  match issue env ⟨0, []⟩ .activate with
  | (.error e, s1) => (.error (.bridge e), s1)
  | (.ok _, s1) =>
  match set_safari_url env s1 reportsUrl with
  | (.error e, s2) => (.error (.bridge e), s2)
  | (.ok _, s2) =>
  match readinessPoll env 20 s2 with
  | (false, s3) => (.error .pageNotReady, s3)
  | (true, s3) =>
  match issue env s3 .getUrl with
  | (.error e, s4) => (.error (.bridge e), s4)
  | (.ok url, s4) =>
  if pyIn "sign-in" (pyLowerStr url) || pyIn "signin" (pyLowerStr url) then
    (.error .notLoggedIn, s4)
  else
  let start := s4.t
  match issue env s4 (.runJs jsClickCheckbox) with
  | (.error e, s5) => (.error (.bridge e), s5)
  | (.ok res1, s5) =>
  if res1 ≠ "clicked" then (.error .noCheckboxes, s5)
  else
  let s6 := sleepTicks s5 1
  match issue env s6 (.runJs jsClickExport) with
  | (.error e, s7) => (.error (.bridge e), s7)
  | (.ok res2, s7) =>
  if res2 ≠ "clicked" then (.error .exportButtonNotFound, s7)
  else
  let s8 := sleepTicks s7 1
  match issue env s8 (.runJs jsClickCsv) with
  | (.error e, s9) => (.error (.bridge e), s9)
  | (.ok res3, s9) =>
  if res3 ≠ "clicked" then (.error .defaultCsvNotFound, s9)
  else
  downloadPoll env start (start + 2 * timeout) (2 * timeout + 1) s9

/-! ### Definitions supporting the claim statements -/

/-- Drop one leading sign character. -/
def dropSignChar (l : List Char) : List Char :=
  match l with
  | [] => []
  | c :: r => if c = '+' ∨ c = '-' then r else c :: r

/-- Does the cleaned amount text spell one of the special values of the
decimal syntax: after stripping, underscore removal and an optional
sign, it begins (case-insensitively) with inf, nan or snan. -/
def isSpecialLiteral (l : List Char) : Bool :=
  let u := (dropSignChar ((pyStripL l).filter (fun c => c ≠ '_'))).map pyLowerChar
  startsWithL ['i', 'n', 'f'] u || startsWithL ['n', 'a', 'n'] u ||
    startsWithL ['s', 'n', 'a', 'n'] u

/-- The cleaned amount characters of an optional input. -/
def cleanedAmountO : Option String → List Char
  | none => []
  | some s => cleanedAmount s

def csvSample : String :=
  "Date,Merchant,Amount\n03/14/2024,Coffee Co,$4.50\n05/01/2024,Tea Shop,2.00"

/-- Characters that can occur in an unsigned finite numeral. -/
def numChar (c : Char) : Bool :=
  c.isDigit || c = '.' || c = 'e' || c = 'E' || c = '+' || c = '-'

/-- The scope of the parenthesized-negation law: after removing currency
symbols and separators the text is a plain unsigned finite numeral — the
reading of a value in the claim. -/
def plainNumeral (l : List Char) : Bool := (parseUnsignedFinite? l).isSome

/-! ### Concrete environments used by witnesses and counterexamples -/

/-- A bridge that answers every call successfully, reports a rendered
page (twelve selection controls), confirms every click, and keeps the
tab on the protected reports url. -/
def envOk : Env :=
  { respond := fun _ c =>
      match c with
      | .activate => .ok ""
      | .ensureWindow => .ok ""
      | .setUrl _ => .ok ""
      | .getUrl => .ok reportsUrl
      | .runJs s =>
        if s = readyScript then .ok "12"
        else if s = jsClickCheckbox then .ok "clicked"
        else if s = jsClickExport then .ok "clicked"
        else if s = jsClickCsv then .ok "clicked"
        else .ok ""
      | .closeTab => .ok ""
    files := fun _ => [⟨"Expensify.csv", 3, true, "Merchant,Amount"⟩] }

/-- Same bridge as `envOk`, but the export-menu click reports that the
button was not found. -/
def envExportMissing : Env :=
  { respond := fun _ c =>
      match c with
      | .activate => .ok ""
      | .ensureWindow => .ok ""
      | .setUrl _ => .ok ""
      | .getUrl => .ok reportsUrl
      | .runJs s =>
        if s = readyScript then .ok "12"
        else if s = jsClickCheckbox then .ok "clicked"
        else .ok "not found"
      | .closeTab => .ok ""
    files := fun _ => [] }

/-- A bridge whose readiness probe always reports a bare page (zero
selection controls). -/
def envNeverReady : Env :=
  { respond := fun _ c =>
      match c with
      | .runJs s => if s = readyScript then .ok "0" else .ok "clicked"
      | .getUrl => .ok reportsUrl
      | _ => .ok ""
    files := fun _ => [] }

/-! ## Helper lemmas -/

theorem startsWithL_iff_take (p l : List Char) :
    startsWithL p l = true ↔ l.take p.length = p := by
  induction p generalizing l with
  | nil => simp [startsWithL]
  | cons a as ih =>
    cases l with
    | nil => simp [startsWithL]
    | cons b bs =>
      simp only [startsWithL, List.length_cons, List.take_succ_cons,
        Bool.and_eq_true, decide_eq_true_eq, List.cons.injEq, ih]
      constructor
      · rintro ⟨h1, h2⟩; exact ⟨h1.symm, h2⟩
      · rintro ⟨h1, h2⟩; exact ⟨h1.symm, h2⟩

/-! ## Claim C8 : boolean coercion -/

/-- C8: for every boolean-field input whose lower-cased form is one of
yes, true, 1, y the parsed boolean is true, and for the empty string,
No, a missing column, or any other value it is false; the listed
concrete cases are spelled out alongside the full characterization. -/
theorem claim_C8_parse_bool :
    (∀ v : Option String, parse_bool v = true ↔
      ∃ s, v = some s ∧ ["yes", "true", "1", "y"].contains (pyLowerStr s) = true) ∧
    parse_bool (some "Yes") = true ∧ parse_bool (some "TRUE") = true ∧
    parse_bool (some "1") = true ∧ parse_bool (some "y") = true ∧
    parse_bool (some "") = false ∧ parse_bool (some "No") = false ∧
    parse_bool none = false := by
  refine ⟨?_, by decide, by decide, by decide, by decide, by decide, by decide, rfl⟩
  intro v
  cases v with
  | none => simp [parse_bool]
  | some s =>
    by_cases hs : s = ""
    · subst hs
      simp only [parse_bool, if_pos rfl]
      constructor
      · intro h; exact absurd h (by decide)
      · rintro ⟨s, hs2, hc⟩
        cases hs2
        exact absurd hc (by decide)
    · simp [parse_bool, hs]

/-! ## Claim C4 : alias-table resolution -/

/-- C4: field resolution tries the aliases in priority order, each first
by exact key match and then by a case-insensitive scan of all row keys,
and the first alias present wins; in particular a row carrying a
Merchant column resolves the merchant field to that column regardless of
any Vendor column. -/
theorem claim_C4_alias_priority :
    (∀ (row : Row) (names : List String),
      find_field row names =
        names.findSome? (fun n => (rowGet row n).orElse (fun _ => rowGetCI row n))) ∧
    (∀ (row : Row) (v : String), rowGet row "Merchant" = some v →
      find_field row (fmGet "merchant") = some v) := by
  have hspec : ∀ (row : Row) (names : List String),
      find_field row names =
        names.findSome? (fun n => (rowGet row n).orElse (fun _ => rowGetCI row n)) := by
    intro row names
    induction names with
    | nil => rfl
    | cons n rest ih =>
      cases h1 : rowGet row n with
      | some v => simp [find_field, List.findSome?, h1, Option.orElse]
      | none =>
        cases h2 : rowGetCI row n with
        | some v => simp [find_field, List.findSome?, h1, h2, Option.orElse]
        | none => simp [find_field, List.findSome?, h1, h2, Option.orElse, ih]
  refine ⟨hspec, fun row v h => ?_⟩
  have hm : fmGet "merchant" = ["Merchant", "Vendor", "Payee", "Description"] := by decide
  rw [hm]
  simp [find_field, h]

/-- Concrete instance of C4 at a row holding both columns. -/
theorem claim_C4_witness :
    rowGet [("Merchant", "Coffee Co"), ("Vendor", "Vendor Co")] "Merchant" = some "Coffee Co" ∧
    find_field [("Merchant", "Coffee Co"), ("Vendor", "Vendor Co")] (fmGet "merchant") =
      some "Coffee Co" :=
  ⟨by decide, claim_C4_alias_priority.2 _ _ (by decide)⟩

/-! ## Claim C2 : the amount invariant -/




theorem unsigned_nonfinite_special (neg : Bool) (r : List Char) (d : PyDec)
    (h : unsignedPyDec? neg r = some d) (hd : d.isFinite = false) :
    startsWithL ['i', 'n', 'f'] (r.map pyLowerChar) = true ∨
    startsWithL ['n', 'a', 'n'] (r.map pyLowerChar) = true ∨
    startsWithL ['s', 'n', 'a', 'n'] (r.map pyLowerChar) = true := by
  simp only [unsignedPyDec?] at h
  by_cases h1 : List.map pyLowerChar r = ['i', 'n', 'f']
  · left; rw [h1]; decide
  by_cases h2 : List.map pyLowerChar r = "infinity".data
  · left; rw [h2]; decide
  by_cases h3 : isNanTok (List.map pyLowerChar r) = true
  · simp only [isNanTok, Bool.or_eq_true, Bool.and_eq_true, decide_eq_true_eq] at h3
    rcases h3 with ⟨hp, _⟩ | ⟨hp, _⟩
    · right; left
      rw [startsWithL_iff_take]
      simpa using hp
    · right; right
      rw [startsWithL_iff_take]
      simpa using hp
  · rw [if_neg (by simp [h1, h2]), if_neg h3] at h
    cases hp : parseUnsignedFinite? r with
    | none => rw [hp] at h; cases h
    | some q =>
      rw [hp] at h
      simp only [Option.map_some'] at h
      cases h
      simp [PyDec.isFinite] at hd

theorem isSpecialLiteral_of_decimal_nonfinite (l : List Char) (d : PyDec)
    (h : decimalOfChars? l = some d) (hd : d.isFinite = false) :
    isSpecialLiteral l = true := by
  cases ht : (pyStripL l).filter (fun c => c ≠ '_') with
  | nil =>
    simp only [decimalOfChars?, ht, signDispatch] at h
    rw [show unsignedPyDec? false [] = none from by decide] at h
    cases h
  | cons c r =>
    simp only [isSpecialLiteral, ht]
    by_cases hp : c = '+'
    · subst hp
      simp only [decimalOfChars?, ht, signDispatch, if_pos rfl] at h
      have := unsigned_nonfinite_special false r d h hd
      simp only [dropSignChar, if_pos (Or.inl rfl)]
      rcases this with h1 | h1 | h1 <;> simp [h1]
    · by_cases hm : c = '-'
      · subst hm
        simp only [decimalOfChars?, ht, signDispatch,
          if_neg (by decide : ¬('-' = '+')), if_pos rfl] at h
        have := unsigned_nonfinite_special true r d h hd
        simp only [dropSignChar, if_pos (Or.inr rfl)]
        rcases this with h1 | h1 | h1 <;> simp [h1]
      · simp only [decimalOfChars?, ht, signDispatch, if_neg hp, if_neg hm] at h
        have := unsigned_nonfinite_special false (c :: r) d h hd
        simp only [dropSignChar, if_neg (not_or.mpr ⟨hp, hm⟩)]
        rcases this with h1 | h1 | h1 <;> simp only [List.map_cons] at h1 <;> simp [h1]

/-- C2 counterexample: the input string NaN is accepted verbatim by the
decimal constructor, so the amount coercion yields a NaN amount rather
than a well-defined finite decimal. -/
theorem claim_C2_counterexample :
    parse_amount (some "NaN") = PyDec.nan ∧
    (parse_amount (some "NaN")).isFinite = false := by
  constructor <;> decide

/-- C2 amended: the amount coercion is total and never yields a missing
value, and it is a finite decimal for every input except those whose
cleaned form spells an explicit special literal of the decimal syntax
(NaN, sNaN or Infinity, optionally signed), for which a NaN or infinite
amount results. -/
theorem claim_C2_amended :
    ∀ a : Option String,
      (parse_amount a).isFinite = true ∨ isSpecialLiteral (cleanedAmountO a) = true := by
  intro a
  cases a with
  | none => left; rfl
  | some s =>
    by_cases hs : s = ""
    · subst hs; left; decide
    · simp only [parse_amount, if_neg hs]
      cases hdec : decimalOfChars? (cleanedAmount s) with
      | none => left; rfl
      | some d =>
        cases hfin : d.isFinite with
        | true => left; rfl
        | false =>
          right
          exact isSpecialLiteral_of_decimal_nonfinite (cleanedAmount s) d hdec hfin

/-! ## Claim C9 : the download watcher -/

theorem scanCandidates_eq_find? (now ma : ℤ) (l : List FileInfo) :
    scanCandidates now ma l = l.find? (acceptsCandidate now ma) := by
  induction l with
  | nil => rfl
  | cons f rest ih =>
    by_cases h1 : now - f.mtime > 2 * ma
    · have ha : acceptsCandidate now ma f = false := by
        simp [acceptsCandidate, h1]
      rw [List.find?_cons_of_neg _ (by simp [ha]), scanCandidates, if_pos h1, ih]
    · cases h2 : f.readable with
      | false =>
        have ha : acceptsCandidate now ma f = false := by
          simp [acceptsCandidate, h2]
        rw [List.find?_cons_of_neg _ (by simp [ha]), scanCandidates, if_neg h1]
        simp [h2, ih]
      | true =>
        cases h3 : looksLikeExport f with
        | false =>
          have ha : acceptsCandidate now ma f = false := by
            simp [acceptsCandidate, h3]
          rw [List.find?_cons_of_neg _ (by simp [ha]), scanCandidates, if_neg h1]
          simp [h2, h3, ih]
        | true =>
          have ha : acceptsCandidate now ma f = true := by
            simp [acceptsCandidate, h1, h2, h3]
          rw [List.find?_cons_of_pos _ (by simp [ha]), scanCandidates, if_neg h1]
          simp [h2, h3]

/-- C9: on each scan the watcher is the first-qualifying search over the
ten most recent csv files ordered by decreasing modification time; any
returned file was readable, and on a directory holding a 2-minute-old
and a 3-second-old qualifying file (times in half-second ticks) the
3-second-old one wins. -/
theorem claim_C9_watcher :
    (∀ (files : List FileInfo) (now max_age : ℤ),
      find_latest_expensify_csv files now max_age =
        ((sortByMtimeDesc (files.filter (fun f => pyEndsWith ".csv" f.name))).take 10).find?
          (acceptsCandidate now max_age)) ∧
    (∀ (files : List FileInfo) (now max_age : ℤ) (f : FileInfo),
      find_latest_expensify_csv files now max_age = some f → f.readable = true) ∧
    find_latest_expensify_csv
        [⟨"report.csv", 760, true, "Merchant,Amount"⟩,
         ⟨"data.csv", 994, true, "Merchant stuff"⟩] 1000 300 =
      some ⟨"data.csv", 994, true, "Merchant stuff"⟩ := by
  have hchar : ∀ (files : List FileInfo) (now max_age : ℤ),
      find_latest_expensify_csv files now max_age =
        ((sortByMtimeDesc (files.filter (fun f => pyEndsWith ".csv" f.name))).take 10).find?
          (acceptsCandidate now max_age) := by
    intro files now max_age
    unfold find_latest_expensify_csv
    exact scanCandidates_eq_find? now max_age _
  refine ⟨hchar, ?_, by decide⟩
  intro files now max_age f h
  rw [hchar] at h
  have := List.find?_some h
  simp only [acceptsCandidate, Bool.and_eq_true] at this
  exact this.1.2

/-- Concrete instance of C9: the returned candidate is readable. -/
theorem claim_C9_witness :
    (⟨"data.csv", 994, true, "Merchant stuff"⟩ : FileInfo).readable = true :=
  claim_C9_watcher.2.1
    [⟨"report.csv", 760, true, "Merchant,Amount"⟩,
     ⟨"data.csv", 994, true, "Merchant stuff"⟩] 1000 300 _ (by decide)

/-! ## Claims C5, C1, C3 : orchestration behaviour -/

theorem readinessPoll_fail (env : Env) :
    ∀ (n : ℕ) (s : S),
      (∀ i : ℕ, i < n →
        readySuccess (env.respond (s.t + 2 * (i + 1)) (.runJs readyScript)) = false) →
      readinessPoll env n s =
        (false, ⟨s.t + 2 * n, s.tr ++ List.replicate n (Cmd.runJs readyScript)⟩) := by
  intro n
  induction n with
  | zero =>
    intro s _
    cases s
    simp [readinessPoll]
  | succ m ih =>
    intro s h
    have h0 : readySuccess (env.respond (s.t + 2) (Cmd.runJs readyScript)) = false := by
      simpa using h 0 (Nat.succ_pos m)
    have hih := ih ⟨s.t + 2, s.tr ++ [Cmd.runJs readyScript]⟩ (by
      intro i hi
      have hx := h (i + 1) (Nat.succ_lt_succ hi)
      have harith : s.t + 2 * (((i : ℕ) + 1 : ℕ) + 1 : ℤ) = s.t + 2 + 2 * ((i : ℤ) + 1) := by
        push_cast; ring
      simp only [S.mk.injEq]
      rw [← harith]
      simpa using hx)
    have hfin :
        ((false, (⟨s.t + 2 + 2 * m,
            (s.tr ++ [Cmd.runJs readyScript]) ++ List.replicate m (Cmd.runJs readyScript)⟩ : S)) :
          Bool × S) =
        (false, (⟨s.t + 2 * ((m : ℕ) + 1 : ℕ),
            s.tr ++ List.replicate (m + 1) (Cmd.runJs readyScript)⟩ : S)) := by
      simp only [Prod.mk.injEq, S.mk.injEq, true_and]
      constructor
      · push_cast; ring
      · simp [List.replicate_succ]
    unfold readinessPoll
    simp only [sleepTicks, issue, Nat.cast_ofNat]
    split
    · rename_i a s2 heq
      injection heq with heq1 heq2
      subst heq2
      exact hih.trans hfin
    · rename_i res s2 heq
      injection heq with heq1 heq2
      subst heq2
      rw [heq1] at h0
      simp only [readySuccess] at h0
      split
      · rename_i c hc
        rw [hc] at h0
        rw [if_neg (by simpa using h0)]
        exact hih.trans hfin
      · exact hih.trans hfin

/-- C5: when the readiness probe never exceeds the control-count
threshold across the twenty one-second attempts, the orchestration fails
with the page-not-ready diagnostic and the tab is left open: no close
command is ever issued on this path. -/
theorem claim_C5_page_not_ready (env : Env) (rid : Option String)
    (headless : Bool) (timeout : ℕ)
    (hact : ∃ a, env.respond 0 .activate = .ok a)
    (hens : ∃ b, env.respond 0 .ensureWindow = .ok b)
    (hset : ∃ c, env.respond 0 (.setUrl reportsUrl) = .ok c)
    (hready : ∀ i : ℕ, i < 20 →
      readySuccess (env.respond (2 * (i + 1)) (.runJs readyScript)) = false) :
    (sync_fetch_expenses_csv env rid headless timeout).1 = .error .pageNotReady ∧
    Cmd.closeTab ∉ (sync_fetch_expenses_csv env rid headless timeout).2.tr := by
  obtain ⟨a, ha⟩ := hact
  obtain ⟨b, hb⟩ := hens
  obtain ⟨c, hc⟩ := hset
  have hpoll := readinessPoll_fail env 20
    ⟨0, [Cmd.activate, Cmd.ensureWindow, Cmd.setUrl reportsUrl]⟩
    (by intro i hi; simpa using hready i hi)
  simp only [List.nil_append, List.singleton_append] at hpoll
  unfold sync_fetch_expenses_csv
  simp only [issue, set_safari_url, ha, hb, hc, List.nil_append, List.singleton_append,
    List.cons_append]
  rw [hpoll]
  refine ⟨rfl, ?_⟩
  simp [List.mem_append, List.mem_replicate]

/-- Concrete instance of C5: an environment whose readiness probe always
reports zero controls fails with the page-not-ready diagnostic leaving
the tab open. -/
theorem claim_C5_witness :
    (sync_fetch_expenses_csv envNeverReady none true 60).1 = .error .pageNotReady ∧
    Cmd.closeTab ∉ (sync_fetch_expenses_csv envNeverReady none true 60).2.tr :=
  claim_C5_page_not_ready envNeverReady none true 60 ⟨"", rfl⟩ ⟨"", rfl⟩ ⟨"", rfl⟩ (by decide)

theorem downloadPoll_closeTab (env : Env) (start endT : ℤ) :
    ∀ (fuel : ℕ) (s : S), Cmd.closeTab ∈ (downloadPoll env start endT fuel s).2.tr := by
  intro fuel
  induction fuel with
  | zero => intro s; simp [downloadPoll, close_safari_tab, issue]
  | succ m ih =>
    intro s
    unfold downloadPoll
    split
    · split
      · rename_i f heq
        split
        · simp [close_safari_tab, issue]
        · exact ih _
      · exact ih _
    · simp [close_safari_tab, issue]

/-- C1 amended: the orchestration closes the tab before returning
exactly on the outcomes produced by the download-await phase — success
and download-deadline exhaustion; earlier failures do not reach cleanup. -/
theorem claim_C1_cleanup (env : Env) (rid : Option String) (headless : Bool) (timeout : ℕ)
    (h : (∃ p, (sync_fetch_expenses_csv env rid headless timeout).1 = .ok p) ∨
      (sync_fetch_expenses_csv env rid headless timeout).1 = .error .noExport) :
    Cmd.closeTab ∈ (sync_fetch_expenses_csv env rid headless timeout).2.tr := by
  unfold sync_fetch_expenses_csv at h ⊢
  cases ha : env.respond 0 Cmd.activate with
  | error e => simp [issue, ha] at h
  | ok a =>
  simp only [issue, ha, List.nil_append, List.singleton_append, List.cons_append] at h ⊢
  cases hb : env.respond 0 Cmd.ensureWindow with
  | error e => simp [set_safari_url, issue, hb] at h
  | ok b =>
  simp only [set_safari_url, issue, hb, List.nil_append, List.singleton_append,
    List.cons_append] at h ⊢
  cases hc : env.respond 0 (Cmd.setUrl reportsUrl) with
  | error e => simp [hc] at h
  | ok c =>
  simp only [hc, List.nil_append, List.singleton_append, List.cons_append] at h ⊢
  cases hr : readinessPoll env 20 ⟨0, [Cmd.activate, Cmd.ensureWindow, Cmd.setUrl reportsUrl]⟩ with
  | mk ready s3 =>
  simp only [hr] at h
  cases ready with
  | false => simp at h
  | true =>
  cases hu : env.respond s3.t Cmd.getUrl with
  | error e => simp [hu] at h
  | ok url =>
  simp only [hu] at h ⊢
  by_cases hsg : (pyIn "sign-in" (pyLowerStr url) || pyIn "signin" (pyLowerStr url)) = true
  · simp [hsg] at h
  simp only [hsg, if_false, Bool.false_eq_true] at h ⊢
  cases h1 : env.respond s3.t (Cmd.runJs jsClickCheckbox) with
  | error e => simp [h1] at h
  | ok res1 =>
  simp only [h1] at h ⊢
  by_cases hres1 : res1 = "clicked"
  case neg => simp [hres1] at h
  simp only [hres1, ne_eq, not_true_eq_false, if_false, sleepTicks, Nat.cast_one] at h ⊢
  cases h2 : env.respond (s3.t + 1) (Cmd.runJs jsClickExport) with
  | error e => simp [h2] at h
  | ok res2 =>
  simp only [h2] at h ⊢
  by_cases hres2 : res2 = "clicked"
  case neg => simp [hres2] at h
  simp only [hres2, ne_eq, not_true_eq_false, if_false, sleepTicks, Nat.cast_one] at h ⊢
  cases h3 : env.respond (s3.t + 1 + 1) (Cmd.runJs jsClickCsv) with
  | error e => simp [h3] at h
  | ok res3 =>
  simp only [h3] at h ⊢
  by_cases hres3 : res3 = "clicked"
  case neg => simp [hres3] at h
  simp only [hres3, ne_eq, not_true_eq_false, if_false] at h ⊢
  exact downloadPoll_closeTab env _ _ _ _

/-- C1 counterexample: in an environment where the export-menu click
reports not found, the orchestration fails from state 5 yet never issues
the close command, so the tab is not closed before the error returns. -/
theorem claim_C1_counterexample :
    (sync_fetch_expenses_csv envExportMissing none true 60).1 =
      .error .exportButtonNotFound ∧
    Cmd.closeTab ∉ (sync_fetch_expenses_csv envExportMissing none true 60).2.tr := by
  constructor <;> decide

/-- Concrete instance of C1 as amended: a successful export closes the
tab before returning. -/
theorem claim_C1_witness :
    ((∃ p, (sync_fetch_expenses_csv envOk none true 60).1 = .ok p) ∨
      (sync_fetch_expenses_csv envOk none true 60).1 = .error .noExport) ∧
    Cmd.closeTab ∈ (sync_fetch_expenses_csv envOk none true 60).2.tr :=
  have h : (∃ p, (sync_fetch_expenses_csv envOk none true 60).1 = .ok p) ∨
      (sync_fetch_expenses_csv envOk none true 60).1 = .error .noExport :=
    Or.inl ⟨("Merchant,Amount", "Expensify"), by decide⟩
  ⟨h, claim_C1_cleanup envOk none true 60 h⟩

theorem is_logged_in_true_shape (env : Env) (s : S)
    (h : (is_logged_in env s).1 = true) :
    (is_logged_in env s).2 =
      ⟨s.t + 6, s.tr ++ [Cmd.activate, Cmd.ensureWindow, Cmd.setUrl reportsUrl, Cmd.getUrl]⟩ := by
  unfold is_logged_in at h ⊢
  cases ha : env.respond s.t Cmd.activate with
  | error e => simp [issue, ha] at h
  | ok a =>
  simp only [issue, ha] at h ⊢
  cases hb : env.respond s.t Cmd.ensureWindow with
  | error e => simp [set_safari_url, issue, hb] at h
  | ok b =>
  simp only [set_safari_url, issue, hb] at h ⊢
  cases hc : env.respond s.t (Cmd.setUrl reportsUrl) with
  | error e => simp [hc] at h
  | ok c =>
  simp only [hc, sleepTicks, Nat.cast_ofNat] at h ⊢
  cases hu : env.respond (s.t + 6) Cmd.getUrl with
  | error e => simp [hu] at h
  | ok url =>
  simp only [hu] at h ⊢
  simp [List.append_assoc]

/-- C3 amended: when the probe already succeeds at entry, login returns
true immediately and the only navigation it performs is the probe
navigating the tab to the protected reports url — in particular it never
navigates to the sign-in page. -/
theorem claim_C3_login_probe (env : Env) (profile : String) (timeout : ℕ)
    (hact : ∃ a, env.respond 0 .activate = .ok a)
    (hprobe : (is_logged_in env ⟨0, [Cmd.activate]⟩).1 = true) :
    (sync_login_interactive env profile timeout).1 = .ok true ∧
    navigationsOf (sync_login_interactive env profile timeout).2.tr = [reportsUrl] := by
  obtain ⟨a, ha⟩ := hact
  have hsh := is_logged_in_true_shape env ⟨0, [Cmd.activate]⟩ hprobe
  unfold sync_login_interactive
  simp only [issue, ha, List.nil_append]
  cases hli : is_logged_in env ⟨0, [Cmd.activate]⟩ with
  | mk bb s2 =>
  rw [hli] at hprobe hsh
  simp only at hprobe hsh
  subst hprobe
  rw [hsh]
  constructor
  · rfl
  · show navigationsOf
        ([Cmd.activate] ++
          [Cmd.activate, Cmd.ensureWindow, Cmd.setUrl reportsUrl, Cmd.getUrl]) = [reportsUrl]
    decide

/-- C3 counterexample: with the probe succeeding at entry, login returns
true immediately and yet a navigation command (the probe pointing the
tab at the reports url) was issued, so login does not perform zero
navigations. -/
theorem claim_C3_counterexample :
    (sync_login_interactive envOk "Work" 120).1 = .ok true ∧
    Cmd.setUrl reportsUrl ∈ (sync_login_interactive envOk "Work" 120).2.tr := by
  constructor <;> decide

/-- Concrete instance of C3 as amended. -/
theorem claim_C3_witness :
    (is_logged_in envOk ⟨0, [Cmd.activate]⟩).1 = true ∧
    (sync_login_interactive envOk "Work" 120).1 = .ok true ∧
    navigationsOf (sync_login_interactive envOk "Work" 120).2.tr = [reportsUrl] :=
  ⟨by decide, (claim_C3_login_probe envOk "Work" 120 ⟨"", rfl⟩ (by decide)).1,
    (claim_C3_login_probe envOk "Work" 120 ⟨"", rfl⟩ (by decide)).2⟩

/-! ## Claim C7 : parse shape -/

/-- C7: for every csv text in the plain fragment (recognizable header
line, non-blank data lines without quotes or carriage returns, rows as
wide as the header) the parse yields exactly one record per data row, in
input order, with every field coercion total — no malformed value can
fail a row. -/
theorem claim_C7_parse_shape (text header : String) (dataLines : List String)
    (hsplit : csvLines text = header :: dataLines)
    (hnonblank : ∀ l ∈ dataLines, l ≠ "")
    (hnoquote : pyIn "\"" text = false)
    (hnocr : pyIn "\x0d" text = false)
    (hwidth : ∀ l ∈ dataLines, (splitCommas l).length = (splitCommas header).length) :
    parse_expensify_csv text =
      dataLines.map (fun l => parse_row ((splitCommas header).zip (splitCommas l))) ∧
    (parse_expensify_csv text).length = dataLines.length := by
  have hrows : dictRows text =
      dataLines.map (fun l => (splitCommas header).zip (splitCommas l)) := by
    unfold dictRows
    rw [hsplit]
    have hfil : dataLines.filter (fun l => l ≠ "") = dataLines :=
      List.filter_eq_self.mpr (fun a ha => by simpa using hnonblank a ha)
    show (dataLines.filter (fun l => l ≠ "")).map
        (fun line => (splitCommas header).zip (splitCommas line)) =
      dataLines.map (fun l => (splitCommas header).zip (splitCommas l))
    rw [hfil]
  constructor
  · unfold parse_expensify_csv
    rw [hrows, List.map_map]
    rfl
  · unfold parse_expensify_csv
    rw [hrows]
    simp


/-- Concrete instance of C7: a two-row export yields two records. -/
theorem claim_C7_witness :
    (parse_expensify_csv csvSample).length = 2 :=
  (claim_C7_parse_shape csvSample "Date,Merchant,Amount"
    ["03/14/2024,Coffee Co,$4.50", "05/01/2024,Tea Shop,2.00"]
    (by decide) (by decide) (by decide) (by decide) (by decide)).2

/-! ## Claim C6 : parenthesized negation -/
theorem isDigit_ne {c : Char} (hc : c.isDigit = true) (d : Char) (hd : d.isDigit = false) :
    c ≠ d := by
  intro h
  subst h
  rw [hc] at hd
  cases hd

theorem pySpace_eq_false_of_numChar {c : Char} (hc : numChar c = true) : pySpace c = false := by
  cases hps : pySpace c
  · rfl
  · exfalso
    simp only [pySpace, Bool.or_eq_true, decide_eq_true_eq] at hps
    rcases hps with ((((h | h) | h) | h) | h) | h <;> subst h <;> exact absurd hc (by decide)

theorem ne_underscore_of_numChar {c : Char} (hc : numChar c = true) : c ≠ '_' := by
  intro h
  subst h
  exact absurd hc (by decide)

theorem pyLowerChar_eq_of_isDigit {c : Char} (hc : c.isDigit = true) : pyLowerChar c = c := by
  unfold pyLowerChar
  rw [if_neg]
  rintro ⟨h1, _⟩
  simp only [Char.isDigit, Bool.and_eq_true, decide_eq_true_eq] at hc
  have h2 : c ≤ '9' := hc.2
  exact absurd (le_trans h1 h2) (by decide)

theorem pyLowerChar_head_not_special {c : Char} (hc : c.isDigit = true ∨ c = '.') :
    pyLowerChar c ≠ 'i' ∧ pyLowerChar c ≠ 'n' ∧ pyLowerChar c ≠ 's' := by
  rcases hc with hc | hc
  · rw [pyLowerChar_eq_of_isDigit hc]
    exact ⟨isDigit_ne hc 'i' (by decide), isDigit_ne hc 'n' (by decide),
      isDigit_ne hc 's' (by decide)⟩
  · subst hc
    exact ⟨by decide, by decide, by decide⟩

theorem dropWhile_head_false {p : Char → Bool} {l : List Char} {a : Char} {t : List Char}
    (h : l.dropWhile p = a :: t) : p a = false := by
  induction l with
  | nil => cases h
  | cons b bs ih =>
    rw [List.dropWhile_cons] at h
    split at h
    · exact ih h
    · rename_i hb
      injection h with h1 _
      subst h1
      simpa using hb

theorem parseMantissa?_chars {m : List Char} {q : ℚ} (h : parseMantissa? m = some q) :
    (∀ c ∈ m, (c.isDigit || c = '.') = true) ∧ m ≠ [] := by
  have hm := (List.takeWhile_append_dropWhile Char.isDigit m).symm
  simp only [parseMantissa?] at h
  split at h
  · rename_i heq
    split at h
    · cases h
    · rename_i hip
      rw [heq, List.append_nil] at hm
      constructor
      · intro c hc
        rw [hm] at hc
        simp [List.mem_takeWhile_imp hc]
      · intro hnil
        subst hnil
        exact hip rfl
  · rename_i fp heq
    split at h
    · rename_i hcond
      rw [heq] at hm
      simp only [Bool.and_eq_true] at hcond
      constructor
      · intro c hc
        rw [hm] at hc
        rcases List.mem_append.mp hc with hc | hc
        · simp [List.mem_takeWhile_imp hc]
        · rcases List.mem_cons.mp hc with rfl | hc
          · simp
          · have hall := hcond.1
            simp only [allDigits, List.all_eq_true] at hall
            simp [hall c hc]
      · intro hnil
        rw [hnil] at hm
        exact absurd hm.symm (by simp)
    · cases h
  · cases h

theorem parseExpTail?_chars {es : List Char} {e : ℤ} (h : parseExpTail? es = some e) :
    ∀ c ∈ es, (c.isDigit || c = '+' || c = '-') = true := by
  unfold parseExpTail? at h
  split at h
  · split at h
    · rename_i hcond
      simp only [Bool.and_eq_true, ne_eq, decide_eq_true_eq, allDigits,
        List.all_eq_true] at hcond
      intro c hc
      rcases List.mem_cons.mp hc with rfl | hc
      · simp
      · simp [hcond.2 c hc]
    · cases h
  · split at h
    · rename_i hcond
      simp only [Bool.and_eq_true, ne_eq, decide_eq_true_eq, allDigits,
        List.all_eq_true] at hcond
      intro c hc
      rcases List.mem_cons.mp hc with rfl | hc
      · simp
      · simp [hcond.2 c hc]
    · cases h
  · split at h
    · rename_i hcond
      simp only [Bool.and_eq_true, ne_eq, decide_eq_true_eq, allDigits,
        List.all_eq_true] at hcond
      intro c hc
      simp [hcond.2 c hc]
    · cases h

theorem parseUnsignedFinite?_chars {Y : List Char} {q : ℚ}
    (h : parseUnsignedFinite? Y = some q) :
    (∀ c ∈ Y, numChar c = true) ∧
    (∃ c0 t0, Y = c0 :: t0 ∧ (c0.isDigit = true ∨ c0 = '.')) := by
  have hm := (List.takeWhile_append_dropWhile (fun c => !(c = 'e' || c = 'E')) Y).symm
  simp only [parseUnsignedFinite?] at h
  split at h
  · rename_i heq
    rw [heq, List.append_nil] at hm
    obtain ⟨hch, hne⟩ := parseMantissa?_chars h
    have hchY : ∀ c ∈ Y, (c.isDigit || c = '.') = true := by
      intro c hc
      rw [hm] at hc
      exact hch c hc
    constructor
    · intro c hc
      have := hchY c hc
      simp only [Bool.or_eq_true, decide_eq_true_eq] at this
      simp only [numChar, Bool.or_eq_true, decide_eq_true_eq]
      tauto
    · have hYne : Y ≠ [] := by rw [hm]; exact hne
      obtain ⟨c0, t0, hY0⟩ := List.exists_cons_of_ne_nil hYne
      refine ⟨c0, t0, hY0, ?_⟩
      have := hchY c0 (by rw [hY0]; simp)
      simpa using this
  · rename_i e0 es heq
    split at h
    · rename_i m e hmant hexp
      rw [heq] at hm
      obtain ⟨hch, hne⟩ := parseMantissa?_chars hmant
      have hE : (e0 = 'e' ∨ e0 = 'E') := by
        have h1 := dropWhile_head_false heq
        by_cases he : e0 = 'e'
        · exact Or.inl he
        · right
          simpa [he] using h1
      have hes := parseExpTail?_chars hexp
      constructor
      · intro c hc
        rw [hm] at hc
        simp only [numChar, Bool.or_eq_true, decide_eq_true_eq]
        rcases List.mem_append.mp hc with hc | hc
        · have := hch c hc
          simp only [Bool.or_eq_true, decide_eq_true_eq] at this
          tauto
        · rcases List.mem_cons.mp hc with rfl | hc
          · tauto
          · have := hes c hc
            simp only [Bool.or_eq_true, decide_eq_true_eq] at this
            tauto
      · obtain ⟨c0, t0, hm0⟩ := List.exists_cons_of_ne_nil hne
        refine ⟨c0, t0 ++ e0 :: es, by rw [hm, hm0]; simp, ?_⟩
        have := hch c0 (by rw [hm0]; simp)
        simpa using this
    · cases h



theorem dropWhile_eq_self_of_none {p : Char → Bool} {l : List Char}
    (h : ∀ c ∈ l, p c = false) : l.dropWhile p = l := by
  cases l with
  | nil => rfl
  | cons a t =>
    rw [List.dropWhile_cons, if_neg]
    simp [h a (by simp)]

theorem pyStripL_eq_self {l : List Char} (h : ∀ c ∈ l, pySpace c = false) :
    pyStripL l = l := by
  unfold pyStripL
  rw [dropWhile_eq_self_of_none h]
  rw [dropWhile_eq_self_of_none (fun c hc => h c (List.mem_reverse.mp hc))]
  exact List.reverse_reverse l

theorem filter_underscore_eq_self {l : List Char} (h : ∀ c ∈ l, c ≠ '_') :
    l.filter (fun c => c ≠ '_') = l :=
  List.filter_eq_self.mpr (fun a ha => by simpa using h a ha)

/-- On whitespace-free, underscore-free text the decimal constructor is
just the sign dispatch. -/
theorem decimalOfChars?_clean {l : List Char}
    (hsp : ∀ c ∈ l, pySpace c = false) (hus : ∀ c ∈ l, c ≠ '_') :
    decimalOfChars? l = signDispatch l := by
  unfold decimalOfChars?
  rw [pyStripL_eq_self hsp, filter_underscore_eq_self hus]

/-- A plain unsigned numeral never hits the special-literal branches. -/
theorem unsignedPyDec?_of_numeral {Y : List Char} {q : ℚ} (neg : Bool)
    (h : parseUnsignedFinite? Y = some q) :
    unsignedPyDec? neg Y = some (.fin (if neg then -q else q)) := by
  obtain ⟨hch, c0, t0, hY0, hc0⟩ := parseUnsignedFinite?_chars h
  have hns := pyLowerChar_head_not_special hc0
  have hinf : ¬((Y.map pyLowerChar = ['i', 'n', 'f'] ||
      Y.map pyLowerChar = "infinity".data) = true) := by
    intro hcontra
    simp only [Bool.or_eq_true, decide_eq_true_eq] at hcontra
    rw [hY0, List.map_cons] at hcontra
    rcases hcontra with h1 | h1
    · injection h1 with h1 _
      exact hns.1 h1
    · injection h1 with h1 _
      exact hns.1 h1
  have hnan : ¬(isNanTok (Y.map pyLowerChar) = true) := by
    intro hcontra
    simp only [isNanTok, Bool.or_eq_true, Bool.and_eq_true, decide_eq_true_eq] at hcontra
    rw [hY0, List.map_cons] at hcontra
    rcases hcontra with ⟨h1, _⟩ | ⟨h1, _⟩
    · rw [show (3 : ℕ) = 2 + 1 from rfl, List.take_succ_cons] at h1
      injection h1 with h1 _
      exact hns.2.1 h1
    · rw [show (4 : ℕ) = 3 + 1 from rfl, List.take_succ_cons] at h1
      injection h1 with h1 _
      exact hns.2.2 h1
  unfold unsignedPyDec?
  rw [if_neg hinf, if_neg hnan, h]
  rfl



/-- C6: for every amount string of the form ($X) where X is a value —
its text after dropping currency symbols and thousands separators is a
plain unsigned finite numeral — the parsed amount is the negation of the
amount parsed from X alone. -/
theorem claim_C6_paren_negation (X : String)
    (hX : plainNumeral (removeSymsL X.data) = true) :
    parse_amount (some ("($" ++ X ++ ")")) = pyDecNeg (parse_amount (some X)) := by
  obtain ⟨q, hq⟩ := Option.isSome_iff_exists.mp hX
  obtain ⟨hchY, c0, t0, hYc0, hc0⟩ := parseUnsignedFinite?_chars hq
  have hXchars : ∀ c ∈ X.data, pySpace c = false ∧ c ≠ '_' := by
    intro c hc
    by_cases hcur : isCurrencyChar c = true
    · simp only [isCurrencyChar, Bool.or_eq_true, decide_eq_true_eq] at hcur
      rcases hcur with (((h | h) | h) | h) | h <;> subst h <;> exact ⟨by decide, by decide⟩
    · have hcY : c ∈ removeSymsL X.data := by
        unfold removeSymsL
        rw [List.mem_filter]
        refine ⟨hc, ?_⟩
        simp [Bool.not_eq_true] at hcur
        simp [hcur]
      exact ⟨pySpace_eq_false_of_numChar (hchY c hcY),
        ne_underscore_of_numChar (hchY c hcY)⟩
  have hXne : X.data ≠ [] := by
    intro h0
    rw [show removeSymsL X.data = [] from by rw [h0]; rfl] at hYc0
    cases hYc0
  -- facts about the cleaned characters of Y
  have hYsp : ∀ c ∈ removeSymsL X.data, pySpace c = false :=
    fun c hc => pySpace_eq_false_of_numChar (hchY c hc)
  have hYus : ∀ c ∈ removeSymsL X.data, c ≠ '_' :=
    fun c hc => ne_underscore_of_numChar (hchY c hc)
  -- the parenthesized side
  have hdata : ("($" ++ X ++ ")").data = '(' :: '$' :: (X.data ++ [')']) := by
    rw [String.data_append, String.data_append]
    rfl
  have hstrip1 : pyStripL (('(' : Char) :: '$' :: (X.data ++ [')'])) =
      '(' :: '$' :: (X.data ++ [')']) := by
    apply pyStripL_eq_self
    intro c hc
    simp only [List.mem_cons, List.mem_append, List.mem_singleton] at hc
    rcases hc with rfl | rfl | hc | rfl | h
    · decide
    · decide
    · exact (hXchars c hc).1
    · decide
    · exact absurd h (by simp)
  have hrm : removeSymsL (('(' : Char) :: '$' :: (X.data ++ [')'])) =
      '(' :: (removeSymsL X.data ++ [')']) := by
    unfold removeSymsL
    rw [List.filter_cons_of_pos (by decide), List.filter_cons_of_neg (by decide),
      List.filter_append]
    rfl
  have hpn : parenNeg (('(' : Char) :: (removeSymsL X.data ++ [')'])) =
      '-' :: removeSymsL X.data := by
    unfold parenNeg
    rw [if_pos]
    · show '-' :: ((removeSymsL X.data ++ [')']).dropLast) = '-' :: removeSymsL X.data
      rw [List.dropLast_concat]
    · constructor
      · rfl
      · rw [show ('(' : Char) :: (removeSymsL X.data ++ [')']) =
            (('(' : Char) :: removeSymsL X.data) ++ [')'] from by simp]
        exact List.getLast?_concat _
  have hbne : ("($" ++ X ++ ")") ≠ "" := by
    intro h0
    have := congrArg String.data h0
    rw [hdata] at this
    cases this
  have hclean1 : cleanedAmount ("($" ++ X ++ ")") = '-' :: removeSymsL X.data := by
    unfold cleanedAmount
    rw [hdata, hstrip1, hrm, hpn]
  have hneg : decimalOfChars? ('-' :: removeSymsL X.data) = some (.fin (-q)) := by
    rw [decimalOfChars?_clean
      (by
        intro c hc
        rcases List.mem_cons.mp hc with rfl | hc
        · decide
        · exact hYsp c hc)
      (by
        intro c hc
        rcases List.mem_cons.mp hc with rfl | hc
        · decide
        · exact hYus c hc)]
    show unsignedPyDec? true (removeSymsL X.data) = some (.fin (-q))
    rw [unsignedPyDec?_of_numeral true hq]
    rfl
  -- the bare side
  have hXbne : X ≠ "" := by
    intro h0
    exact hXne (by rw [h0])
  have hcleanX : cleanedAmount X = removeSymsL X.data := by
    unfold cleanedAmount
    rw [pyStripL_eq_self (fun c hc => (hXchars c hc).1)]
    have hcond : ¬((removeSymsL X.data).head? = some '(' ∧
        (removeSymsL X.data).getLast? = some ')') := by
      rintro ⟨hh, _⟩
      rw [hYc0] at hh
      simp only [List.head?_cons, Option.some.injEq] at hh
      rcases hc0 with hd | hd
      · exact isDigit_ne hd '(' (by decide) hh
      · rw [hd] at hh
        cases hh
    unfold parenNeg
    rw [if_neg hcond]
  have hpos : decimalOfChars? (removeSymsL X.data) = some (.fin q) := by
    rw [decimalOfChars?_clean hYsp hYus, hYc0]
    have hplus : ¬(c0 = '+') := by
      rcases hc0 with hd | hd
      · exact isDigit_ne hd '+' (by decide)
      · rw [hd]; decide
    have hminus : ¬(c0 = '-') := by
      rcases hc0 with hd | hd
      · exact isDigit_ne hd '-' (by decide)
      · rw [hd]; decide
    show (if c0 = '+' then unsignedPyDec? false t0
        else if c0 = '-' then unsignedPyDec? true t0
        else unsignedPyDec? false (c0 :: t0)) = some (.fin q)
    rw [if_neg hplus, if_neg hminus, ← hYc0, unsignedPyDec?_of_numeral false hq]
    rfl
  -- assemble
  simp only [parse_amount, if_neg hbne, if_neg hXbne, hclean1, hcleanX, hneg, hpos]
  rfl

/-- Concrete instance of C6 at the example of the specification. -/
theorem claim_C6_witness :
    plainNumeral (removeSymsL ("12.50".data)) = true ∧
    parse_amount (some "($12.50)") = pyDecNeg (parse_amount (some "12.50")) :=
  ⟨by decide, claim_C6_paren_negation "12.50" (by decide)⟩

/-! ## Claim C10 : report_id independence -/

/-- C10: the export orchestration is extensionally independent of its
report_id argument; in one environment any two values produce the same
bridge commands and the same outcome. -/
theorem claim_C10_report_id_independent :
    ∀ (env : Env) (rid1 rid2 : Option String) (headless : Bool) (timeout : ℕ),
      sync_fetch_expenses_csv env rid1 headless timeout =
        sync_fetch_expenses_csv env rid2 headless timeout := by
  intro env rid1 rid2 headless timeout
  rfl

end ExpensifyHeist
